import Mathlib

/-!
# Verification of the `csv-partitioner` column-slice CSV parser

Shallow embedding of `src/csv-partitioner/src/lib.rs` (crate
`csv_slice_parser`).  A Rust `StringRecord` is a `List String`
(`record.get(i)` is `List.get?`); `usize` is `Nat`; `Result<_, Box<dyn
Error>>` is `Except CsvError _`, where `CsvError` keeps structured what
the Rust code carries in its formatted error string (slice index, column
range, header length) or in the boxed decoder error.
-/

namespace CsvPartitioner

/-- Embeds `ParseConfig` (lib.rs 136-154). -/
structure ParseConfig where
  skip_empty_rows : Bool
  reserve_capacity : Bool
  trim_fields : Bool
deriving DecidableEq

/-- Embeds `impl Default for ParseConfig` (lib.rs 156-164). -/
def ParseConfig.default : ParseConfig :=
  { skip_empty_rows := true, reserve_capacity := true, trim_fields := true }

/-- Errors produced by the library.  `outOfBounds` keeps the four arguments
of the `format!` string built in `validate_slice_index` (lib.rs 245-248);
`decodeErr` wraps the boxed error returned by a caller's `from_record`;
`unequalLengths` is the csv crate's `UnequalLengths` error surfaced by
`reader.records()` when a data record's field count differs from the
header's (the reader is built with the crate's default `flexible = false`). -/
inductive CsvError where
  | outOfBounds (sliceIndex startCol endCol headerLen : Nat)
  | decodeErr (msg : String)
  | unequalLengths (expected got : Nat)
deriving DecidableEq

/-- Embeds the `FromColumnSlice` trait (lib.rs 72-117): a per-record-type
column count `COLUMN_COUNT` and a decoder `from_record` taking the row and
the starting column.  The caller's boxed error is a `String`. -/
structure FromColumnSlice (T : Type) where
  COLUMN_COUNT : Nat
  from_record : List String → Nat → Except String T

/-- Embeds `CsvSliceParser` (lib.rs 167-171). -/
structure CsvSliceParser where
  headers : List String
  records : List (List String)
  config : ParseConfig
deriving DecidableEq

/-- Embeds Rust `str::trim` (and the csv crate's `Trim::All` per-field
trimming): strip leading and trailing whitespace from the character
list.  Written over `List Char` so that it is transparent to the kernel. -/
def trimChars (s : List Char) : List Char :=
  ((s.dropWhile Char.isWhitespace).reverse.dropWhile Char.isWhitespace).reverse

/-- `trimChars`, packaged as a `String → String` function. -/
def trimStr (s : String) : String := ⟨trimChars s.data⟩

/-- Embeds `CsvSliceParser::from_records` (lib.rs 220-226). -/
def CsvSliceParser.from_records (headers : List String)
    (records : List (List String)) (config : ParseConfig) : CsvSliceParser :=
  { headers := headers, records := records, config := config }

/-- Embeds `CsvSliceParser::slice_count` (lib.rs 230-232):
`self.headers.len() / T::COLUMN_COUNT`, with `W = T::COLUMN_COUNT`.
Rust `usize` division is floor division and panics when the divisor is 0;
this total version uses `Nat` floor division and is meaningful under the
precondition `W > 0` (see `slice_count_rust` for the `W = 0` behaviour). -/
def CsvSliceParser.slice_count (p : CsvSliceParser) (W : Nat) : Nat :=
  p.headers.length / W

/-- Embeds `CsvSliceParser::slice_count` again, keeping the panic of Rust
`usize` division: `none` models the division-by-zero panic at
`T::COLUMN_COUNT = 0`. -/
def CsvSliceParser.slice_count_rust (p : CsvSliceParser) (W : Nat) : Option Nat :=
  if W = 0 then none else some (p.headers.length / W)

/-- Embeds `CsvSliceParser::record_count` (lib.rs 236-238). -/
def CsvSliceParser.record_count (p : CsvSliceParser) : Nat :=
  p.records.length

/-- Embeds `CsvSliceParser::validate_slice_index` (lib.rs 240-252). -/
def CsvSliceParser.validate_slice_index (p : CsvSliceParser) (W : Nat)
    (slice_index : Nat) : Except CsvError (Nat × Nat) :=
  let start_col := slice_index * W
  let end_col := start_col + W
  if end_col > p.headers.length then
    .error (.outOfBounds slice_index start_col end_col p.headers.length)
  else
    .ok (start_col, end_col)

/-- Embeds `CsvSliceParser::has_empty_fields` (lib.rs 254-257):
`(start_col..end_col).all(|i| record.get(i).map_or(true, |s| s.trim().is_empty()))`.
The Rust range `start_col..end_col` is `List.range' start_col (end_col - start_col)`
(empty when `end_col ≤ start_col`, as in Rust). -/
def CsvSliceParser.has_empty_fields (p : CsvSliceParser)
    (start_col end_col : Nat) (record : List String) : Bool :=
  (List.range' start_col (end_col - start_col)).all fun i =>
    match record.get? i with
    | none => true
    | some s => (trimStr s).isEmpty

/-- Elementwise `Except`-valued map over a list, short-circuiting on the
first error: the shape of the accumulation loops in `parse_slice`
(lib.rs 272-279, `?` on each `from_record`) and `parse_all_slices`
(lib.rs 308-310, `?` on each `parse_slice`). -/
def exceptMapList (f : α → Except ε β) : List α → Except ε (List β)
  | [] => .ok []
  | a :: as =>
    match f a with
    | .error e => .error e
    | .ok b =>
      match exceptMapList f as with
      | .error e => .error e
      | .ok bs => .ok (b :: bs)

/-- The row loop of `parse_slice` (lib.rs 272-279): skip the record when
`skip_empty_rows` is set and the slice's fields are all empty, otherwise
decode it with `?` (first decoder error aborts). -/
def CsvSliceParser.parse_rows {T : Type} (p : CsvSliceParser)
    (D : FromColumnSlice T) (start_col end_col : Nat) :
    List (List String) → Except CsvError (List T)
  | [] => .ok []
  | record :: rest =>
    if p.config.skip_empty_rows && p.has_empty_fields start_col end_col record then
      p.parse_rows D start_col end_col rest
    else
      match (D.from_record record start_col).mapError CsvError.decodeErr with
      | .error e => .error e
      | .ok t =>
        match p.parse_rows D start_col end_col rest with
        | .error e => .error e
        | .ok ts => .ok (t :: ts)

/-- Embeds `CsvSliceParser::parse_slice` (lib.rs 263-284): validate the
slice index, then run the row loop over all records. -/
def CsvSliceParser.parse_slice {T : Type} (p : CsvSliceParser)
    (D : FromColumnSlice T) (slice_index : Nat) : Except CsvError (List T) :=
  match p.validate_slice_index D.COLUMN_COUNT slice_index with
  | .error e => .error e
  | .ok (start_col, end_col) => p.parse_rows D start_col end_col p.records

/-- Embeds `CsvSliceParser::parse_slice_iter` (lib.rs 287-301): validate the
slice index with `?`, then build the lazy iterator
`records.iter().filter_map(...)`.  The iterator, fully consumed, is the
list of its items, so the embedding returns
`Except CsvError (List (Except CsvError T))`: the outer `Except` is the
`?` on `validate_slice_index`, each item is one row's decode result. -/
def CsvSliceParser.parse_slice_iter {T : Type} (p : CsvSliceParser)
    (D : FromColumnSlice T) (slice_index : Nat) :
    Except CsvError (List (Except CsvError T)) :=
  match p.validate_slice_index D.COLUMN_COUNT slice_index with
  | .error e => .error e
  | .ok (start_col, end_col) =>
    .ok (p.records.filterMap fun record =>
      if p.config.skip_empty_rows && p.has_empty_fields start_col end_col record then
        none
      else
        some ((D.from_record record start_col).mapError CsvError.decodeErr))

/-- Embeds `CsvSliceParser::parse_all_slices` (lib.rs 304-313): call
`parse_slice` for `i` in `0..slice_count`, aborting on the first error. -/
def CsvSliceParser.parse_all_slices {T : Type} (p : CsvSliceParser)
    (D : FromColumnSlice T) : Except CsvError (List (List T)) :=
  exceptMapList (p.parse_slice D) (List.range (p.slice_count D.COLUMN_COUNT))

/-- Embeds `CsvSliceParser::slice_headers` (lib.rs 315-326) exactly as
written, including `let end_col = slice_index + T::COLUMN_COUNT;`
(lib.rs 317) — the source uses `slice_index`, not `start_col`, there. -/
def CsvSliceParser.slice_headers (p : CsvSliceParser) (W : Nat)
    (slice_index : Nat) : Option (List String) :=
  let start_col := slice_index * W
  let end_col := slice_index + W
  if end_col > p.headers.length then
    none
  else
    some ((List.range' start_col (end_col - start_col)).filterMap
      fun i => p.headers.get? i)

/-- The record-reading loop of `from_file_with_config` (lib.rs 207-209):
`for result in reader.records() { records.push(result?); }`.  The csv
reader is built with the crate's default `flexible = false`, so a record
whose field count differs from the header's makes `result` an
`UnequalLengths` error; it is built with `.trim(csv::Trim::All)`
(lib.rs 196), so every field of every yielded record is trimmed. -/
def readRecords (expected : Nat) :
    List (List String) → Except CsvError (List (List String))
  | [] => .ok []
  | r :: rs =>
    if r.length ≠ expected then
      .error (.unequalLengths expected r.length)
    else
      match readRecords expected rs with
      | .error e => .error e
      | .ok rest => .ok (r.map trimStr :: rest)

/-- Embeds `CsvSliceParser::from_file_with_config` (lib.rs 189-216), over
the record-tokenized content of the file: `raw` is the list of records the
csv tokenizer produces (tokenization itself — delimiters, quoting — is the
csv crate's and out of scope).  The reader is built with
`has_headers(true)` (first record is the header) and `trim(csv::Trim::All)`
unconditionally — `config.trim_fields` is never consulted — so headers and
fields are always trimmed; remaining records are collected with
`readRecords`.  An empty file yields an empty header and no records, as
`reader.headers()` does. -/
def from_file_with_config (config : ParseConfig) (raw : List (List String)) :
    Except CsvError CsvSliceParser :=
  match raw with
  | [] => .ok { headers := [], records := [], config := config }
  | h :: rest =>
    let headers := h.map trimStr
    match readRecords h.length rest with
    | .error e => .error e
    | .ok records => .ok { headers := headers, records := records, config := config }

/-- Embeds `CsvSliceParser::from_file` (lib.rs 184-186). -/
def from_file (raw : List (List String)) : Except CsvError CsvSliceParser :=
  from_file_with_config ParseConfig.default raw

/-! ## Concrete instances used by the witnesses -/

/-- A two-column record type, as a caller of the library would define one:
both cells are required, mirroring the `ok_or("Missing ...")?` decoders in
the crate's doc examples and in `parse.rs`. -/
def pairSlice : FromColumnSlice (String × String) where
  COLUMN_COUNT := 2
  from_record record start_col :=
    match record.get? start_col, record.get? (start_col + 1) with
    | some a, some b => .ok (a, b)
    | _, _ => .error "Missing field"

/-- A three-column record type whose decoder never fails (missing cells
read as empty strings), exercising the leniency path. -/
def lenientSlice : FromColumnSlice (String × String × String) where
  COLUMN_COUNT := 3
  from_record record start_col :=
    .ok ((record.get? start_col).getD "",
         (record.get? (start_col + 1)).getD "",
         (record.get? (start_col + 2)).getD "")

/-- A width-zero record type: `COLUMN_COUNT = 0` is representable and the
library never rejects it. -/
def zeroSlice : FromColumnSlice Unit where
  COLUMN_COUNT := 0
  from_record _ _ := .ok ()

/-- The rows of a store that is not skipped by the `skip_empty_rows` test of
`parse_slice` / `parse_slice_iter` (lib.rs 273-277, 294-298): all records
when the flag is off, otherwise the records whose slice is not all-empty. -/
def CsvSliceParser.surviving_rows (p : CsvSliceParser)
    (start_col end_col : Nat) : List (List String) :=
  if p.config.skip_empty_rows then
    p.records.filter fun r => ! p.has_empty_fields start_col end_col r
  else
    p.records

/-- A parser over five header columns, used by the witnesses (the spec's
own bounds example: H = 5, W = 3). -/
def headerStore5 : CsvSliceParser :=
  CsvSliceParser.from_records ["A", "B", "C", "D", "E"] [] ParseConfig.default

/-- Two-column store with one blank row and one data row, `skip_empty_rows`
on, used by the witnesses. -/
def sampleStore : CsvSliceParser :=
  CsvSliceParser.from_records ["A", "B"] [["", ""], ["x", "y"]] ParseConfig.default

/-- Two-column store whose second row is short, `skip_empty_rows` off, used
by the decoder-error witness. -/
def strictStore : CsvSliceParser :=
  CsvSliceParser.from_records ["A", "B"] [["x", "y"], ["z"]]
    { skip_empty_rows := false, reserve_capacity := true, trim_fields := true }

/-- Three-column store holding a row shorter than the header, as only
`from_records` can produce, used by the leniency witness. -/
def shortRowStore : CsvSliceParser :=
  CsvSliceParser.from_records ["A", "B", "C"] [["x"]] ParseConfig.default

deriving instance DecidableEq for Except

end CsvPartitioner

namespace CsvPartitioner

/-! ## Helper lemmas -/

theorem exceptMapList_ok_iff {α β ε : Type} {f : α → Except ε β} :
    ∀ {xs : List α} {ys : List β},
      exceptMapList f xs = .ok ys ↔ List.Forall₂ (fun x y => f x = .ok y) xs ys := by
  intro xs
  induction xs with
  | nil =>
    intro ys
    constructor
    · intro h
      cases h
      exact .nil
    · intro h
      cases h
      rfl
  | cons a as ih =>
    intro ys
    constructor
    · intro h
      unfold exceptMapList at h
      cases hfa : f a with
      | error e => rw [hfa] at h; cases h
      | ok b =>
        rw [hfa] at h
        cases hrest : exceptMapList f as with
        | error e => rw [hrest] at h; cases h
        | ok bs =>
          rw [hrest] at h
          cases h
          exact .cons hfa (ih.mp hrest)
    · intro h
      cases h with
      | cons hfa hrest =>
        unfold exceptMapList
        rw [hfa, ih.mpr hrest]

theorem exceptMapList_error_iff {α β ε : Type} {f : α → Except ε β} :
    ∀ {xs : List α} {e : ε},
      exceptMapList f xs = .error e ↔
        ∃ pre x post, xs = pre ++ x :: post ∧
          (∀ a ∈ pre, ∃ b, f a = .ok b) ∧ f x = .error e := by
  intro xs
  induction xs with
  | nil =>
    intro e
    constructor
    · intro h
      cases h
    · rintro ⟨pre, x, post, hsplit, -, -⟩
      simp at hsplit
  | cons a as ih =>
    intro e
    constructor
    · intro h
      unfold exceptMapList at h
      cases hfa : f a with
      | error e' =>
        rw [hfa] at h
        cases h
        exact ⟨[], a, as, rfl, by simp, hfa⟩
      | ok b =>
        rw [hfa] at h
        cases hrest : exceptMapList f as with
        | error e' =>
          rw [hrest] at h
          cases h
          obtain ⟨pre, x, post, hsplit, hpre, hx⟩ := ih.mp hrest
          refine ⟨a :: pre, x, post, by rw [hsplit, List.cons_append], ?_, hx⟩
          intro c hc
          rcases List.mem_cons.mp hc with rfl | hc
          · exact ⟨b, hfa⟩
          · exact hpre c hc
        | ok bs => rw [hrest] at h; cases h
    · rintro ⟨pre, x, post, hsplit, hpre, hx⟩
      cases pre with
      | nil =>
        cases hsplit
        unfold exceptMapList
        rw [hx]
      | cons q qs =>
        rw [List.cons_append, List.cons.injEq] at hsplit
        obtain ⟨rfl, hsplit⟩ := hsplit
        obtain ⟨b, hb⟩ := hpre a (List.mem_cons_self a qs)
        unfold exceptMapList
        rw [hb, ih.mpr ⟨qs, x, post, hsplit, fun c hc => hpre c (List.mem_cons_of_mem a hc), hx⟩]

theorem parse_rows_eq_exceptMapList {T : Type} (p : CsvSliceParser)
    (D : FromColumnSlice T) (s e : Nat) (rows : List (List String)) :
    p.parse_rows D s e rows =
      exceptMapList (fun r => (D.from_record r s).mapError CsvError.decodeErr)
        (if p.config.skip_empty_rows then
          rows.filter fun r => ! p.has_empty_fields s e r
        else rows) := by
  induction rows with
  | nil =>
    cases hs : p.config.skip_empty_rows <;> rfl
  | cons r rs ih =>
    rw [CsvSliceParser.parse_rows]
    cases hs : p.config.skip_empty_rows with
    | false =>
      rw [hs] at ih
      rw [if_neg Bool.false_ne_true] at ih
      simp only [Bool.false_and, if_neg Bool.false_ne_true]
      rw [ih, exceptMapList]
      cases (D.from_record r s).mapError CsvError.decodeErr with
      | error e' => rfl
      | ok t =>
        cases exceptMapList (fun r => (D.from_record r s).mapError CsvError.decodeErr) rs with
        | error e' => rfl
        | ok ts => rfl
    | true =>
      rw [hs] at ih
      rw [if_pos rfl] at ih
      simp only [Bool.true_and, if_pos rfl, List.filter_cons, if_true]
      cases he : p.has_empty_fields s e r with
      | true =>
        simp only [he, if_pos rfl, Bool.not_true, if_neg Bool.false_ne_true, if_true]
        exact ih
      | false =>
        simp only [he, if_neg Bool.false_ne_true, Bool.not_false, if_pos rfl, if_true]
        rw [ih, exceptMapList]
        cases (D.from_record r s).mapError CsvError.decodeErr with
        | error e' => rfl
        | ok t =>
          cases exceptMapList (fun r => (D.from_record r s).mapError CsvError.decodeErr)
            (rs.filter fun r => ! p.has_empty_fields s e r) with
          | error e' => rfl
          | ok ts => rfl

theorem parse_slice_eq_surviving {T : Type} (p : CsvSliceParser)
    (D : FromColumnSlice T) (i s e : Nat)
    (hv : p.validate_slice_index D.COLUMN_COUNT i = .ok (s, e)) :
    p.parse_slice D i =
      exceptMapList (fun r => (D.from_record r s).mapError CsvError.decodeErr)
        (p.surviving_rows s e) := by
  unfold CsvSliceParser.parse_slice
  rw [hv]
  exact parse_rows_eq_exceptMapList p D s e p.records

theorem filterMap_if_none {α β : Type} (c : α → Bool) (g : α → β) (l : List α) :
    (l.filterMap fun a => if c a then none else some (g a)) =
      (l.filter fun a => ! c a).map g := by
  induction l with
  | nil => rfl
  | cons a l ih =>
    cases h : c a <;> simp [List.filterMap_cons, List.filter_cons, h, ih]

theorem parse_slice_iter_eq_surviving {T : Type} (p : CsvSliceParser)
    (D : FromColumnSlice T) (i s e : Nat)
    (hv : p.validate_slice_index D.COLUMN_COUNT i = .ok (s, e)) :
    p.parse_slice_iter D i =
      .ok ((p.surviving_rows s e).map
        fun r => (D.from_record r s).mapError CsvError.decodeErr) := by
  unfold CsvSliceParser.parse_slice_iter
  rw [hv]
  unfold CsvSliceParser.surviving_rows
  cases hs : p.config.skip_empty_rows with
  | false =>
    simp only [hs, Bool.false_and, if_neg Bool.false_ne_true]
    congr 1
    rw [show (fun record => some ((D.from_record record s).mapError CsvError.decodeErr)) =
      some ∘ (fun record => (D.from_record record s).mapError CsvError.decodeErr) from rfl]
    rw [List.filterMap_eq_map]
  | true =>
    simp only [hs, Bool.true_and, if_pos rfl]
    congr 1
    exact filterMap_if_none (fun r => p.has_empty_fields s e r)
      (fun r => (D.from_record r s).mapError CsvError.decodeErr) p.records

theorem exceptMapList_of_map_ok {α β ε : Type} {f : α → Except ε β} :
    ∀ {xs : List α} {ts : List β},
      xs.map f = ts.map Except.ok → exceptMapList f xs = .ok ts
  | [], [] => fun _ => rfl
  | [], _ :: _ => by intro h; simp at h
  | _ :: _, [] => by intro h; simp at h
  | x :: xs, t :: ts => by
    intro h
    simp only [List.map_cons, List.cons.injEq] at h
    obtain ⟨h1, h2⟩ := h
    unfold exceptMapList
    rw [h1, exceptMapList_of_map_ok h2]

theorem exceptMapList_range'_error_iff {β ε : Type} {f : Nat → Except ε β} :
    ∀ {n s : Nat} {e : ε},
      exceptMapList f (List.range' s n) = .error e ↔
        ∃ k, s ≤ k ∧ k < s + n ∧ f k = .error e ∧
          ∀ j, s ≤ j → j < k → ∃ b, f j = .ok b := by
  intro n
  induction n with
  | zero =>
    intro s e
    constructor
    · intro h
      cases h
    · rintro ⟨k, hk1, hk2, -, -⟩
      omega
  | succ n ih =>
    intro s e
    rw [List.range'_succ s n 1]
    constructor
    · intro h
      unfold exceptMapList at h
      cases hfs : f s with
      | error e' =>
        rw [hfs] at h
        cases h
        exact ⟨s, le_refl s, by omega, hfs, fun j hj1 hj2 => absurd hj1 (by omega)⟩
      | ok b =>
        rw [hfs] at h
        cases hrest : exceptMapList f (List.range' (s + 1) n) with
        | error e' =>
          rw [hrest] at h
          cases h
          obtain ⟨k, hk1, hk2, hfk, hpre⟩ := ih.mp hrest
          refine ⟨k, by omega, by omega, hfk, fun j hj1 hj2 => ?_⟩
          rcases Nat.eq_or_lt_of_le hj1 with rfl | hj
          · exact ⟨b, hfs⟩
          · exact hpre j hj hj2
        | ok bs => rw [hrest] at h; cases h
    · rintro ⟨k, hk1, hk2, hfk, hpre⟩
      unfold exceptMapList
      rcases Nat.eq_or_lt_of_le hk1 with rfl | hk
      · rw [hfk]
      · obtain ⟨b, hb⟩ := hpre s (le_refl s) hk
        rw [hb, ih.mpr ⟨k, hk, by omega, hfk, fun j hj1 hj2 => hpre j (by omega) hj2⟩]

theorem readRecords_ok_lengths {expected : Nat} :
    ∀ {rs out : List (List String)}, readRecords expected rs = .ok out →
      ∀ r ∈ rs, r.length = expected := by
  intro rs
  induction rs with
  | nil => intro out _ r hr; cases hr
  | cons a as ih =>
    intro out h r hr
    unfold readRecords at h
    by_cases hl : a.length = expected
    · rw [if_neg (by omega)] at h
      rcases List.mem_cons.mp hr with rfl | hr
      · exact hl
      · cases hrest : readRecords expected as with
        | error e => rw [hrest] at h; cases h
        | ok rest => exact ih hrest r hr
    · rw [if_pos (by omega)] at h
      cases h

theorem parse_rows_total_ok {T : Type} (p : CsvSliceParser) (D : FromColumnSlice T)
    (s e : Nat) (htotal : ∀ r c, ∃ t, D.from_record r c = .ok t) :
    ∀ rows : List (List String), ∃ ts, p.parse_rows D s e rows = .ok ts := by
  intro rows
  induction rows with
  | nil => exact ⟨[], rfl⟩
  | cons r rs ih =>
    obtain ⟨ts, hts⟩ := ih
    unfold CsvSliceParser.parse_rows
    by_cases hskip : (p.config.skip_empty_rows && p.has_empty_fields s e r) = true
    · rw [if_pos hskip]
      exact ⟨ts, hts⟩
    · rw [if_neg hskip]
      obtain ⟨t, ht⟩ := htotal r s
      rw [ht, hts]
      exact ⟨t :: ts, rfl⟩

/-! ## Claim theorems -/

/-- C3: for every parser with header length H and every field count W > 0,
`slice_count` returns the floor of H / W (characterized by
`q * W ≤ H < (q + 1) * W`), and in particular returns 0 whenever H < W. -/
theorem slice_count_is_floor_div (p : CsvSliceParser) (W : Nat) (hW : 0 < W) :
    p.slice_count W * W ≤ p.headers.length ∧
    p.headers.length < (p.slice_count W + 1) * W ∧
    (p.headers.length < W → p.slice_count W = 0) := by
  unfold CsvSliceParser.slice_count
  refine ⟨Nat.div_mul_le_self _ _, ?_, fun h => Nat.div_eq_of_lt h⟩
  calc p.headers.length
      = W * (p.headers.length / W) + p.headers.length % W := (Nat.div_add_mod _ _).symm
    _ < W * (p.headers.length / W) + W := by
        have := Nat.mod_lt p.headers.length hW
        omega
    _ = (p.headers.length / W + 1) * W := by ring

/-- Witness for C3 at the spec's own bounds example: H = 5, W = 3 gives
`slice_count = 1`. -/
theorem slice_count_is_floor_div_witness :
    headerStore5.slice_count 3 * 3 ≤ headerStore5.headers.length ∧
    headerStore5.headers.length < (headerStore5.slice_count 3 + 1) * 3 ∧
    (headerStore5.headers.length < 3 → headerStore5.slice_count 3 = 0) :=
  slice_count_is_floor_div headerStore5 3 (by decide)

/-- C2: for every parser and every field count W > 0,
`validate_slice_index i` returns `(i*W, i*W + W)` for every
`i < slice_count` and fails with the out-of-bounds error — carrying the
requested slice index, the computed column range and the actual header
length — for every `i ≥ slice_count`. -/
theorem validate_slice_index_correct (p : CsvSliceParser) (W i : Nat) (hW : 0 < W) :
    (i < p.slice_count W →
      p.validate_slice_index W i = .ok (i * W, i * W + W)) ∧
    (p.slice_count W ≤ i →
      p.validate_slice_index W i =
        .error (.outOfBounds i (i * W) (i * W + W) p.headers.length)) := by
  have key : i < p.slice_count W ↔ i * W + W ≤ p.headers.length := by
    unfold CsvSliceParser.slice_count
    rw [Nat.lt_iff_add_one_le, Nat.le_div_iff_mul_le hW, Nat.add_mul, one_mul]
  constructor
  · intro h
    have hle : i * W + W ≤ p.headers.length := key.mp h
    unfold CsvSliceParser.validate_slice_index
    rw [if_neg (by omega)]
  · intro h
    have hgt : p.headers.length < i * W + W := by
      by_contra hc
      push_neg at hc
      exact absurd (key.mpr hc) (Nat.not_lt.mpr h)
    unfold CsvSliceParser.validate_slice_index
    rw [if_pos (by omega)]

/-- Witness for C2 at the spec's bounds example: H = 5, W = 3, slice 0 is
valid and slice 1 fails reporting start 3, end 6, header length 5. -/
theorem validate_slice_index_correct_witness :
    headerStore5.validate_slice_index 3 0 = .ok (0, 3) ∧
    headerStore5.validate_slice_index 3 1 = .error (.outOfBounds 1 3 6 5) :=
  ⟨(validate_slice_index_correct headerStore5 3 0 (by decide)).1 (by decide),
   (validate_slice_index_correct headerStore5 3 1 (by decide)).2 (by decide)⟩

/-- C1, code bug: `slice_headers` computes its upper bound as
`slice_index + COLUMN_COUNT` (lib.rs 317) instead of
`start_col + COLUMN_COUNT`.  On headers `A,B,C,D` with W = 2 and slice 1
(so `i*W + W = 4 ≤ 4`, a valid slice) it returns `some ["C"]` — the range
`[2, 3)` — where the claimed sub-range `[2, 4)` is `["C", "D"]`. -/
theorem slice_headers_wrong_end_col :
    (CsvSliceParser.from_records ["A", "B", "C", "D"] [] ParseConfig.default).slice_headers 2 1
        = some ["C"] ∧
    some ["C"] ≠ some ["C", "D"] := by
  constructor
  · rfl
  · decide

/-- C4, code bug: `from_file_with_config` builds the reader with
`.trim(csv::Trim::All)` unconditionally (lib.rs 196) and never consults
`config.trim_fields`, so with `trim_fields = false` the cell `" hello "`
is still stored trimmed, contradicting the documented meaning of the
flag. -/
theorem trim_fields_false_still_trims :
    from_file_with_config
        { skip_empty_rows := true, reserve_capacity := true, trim_fields := false }
        [[" hello ", " there "], [" a ", " b "]] =
      .ok { headers := ["hello", "there"], records := [["a", "b"]],
            config := { skip_empty_rows := true, reserve_capacity := true,
                        trim_fields := false } } ∧
    ("hello" : String) ≠ " hello " := by
  constructor
  · rfl
  · decide

/-- C5: for a valid slice `[s, e)`, `has_empty_fields` is true iff every
cell at positions `s..e` is either absent or blank after trimming, and
`parse_slice` feeds the decoder exactly the rows that fail this test when
`skip_empty_rows` is on, and every row when it is off. -/
theorem empty_row_filtering {T : Type} (p : CsvSliceParser) (D : FromColumnSlice T)
    (i s e : Nat)
    (hv : p.validate_slice_index D.COLUMN_COUNT i = .ok (s, e)) :
    (∀ record : List String,
      p.has_empty_fields s e record = true ↔
        ∀ j, s ≤ j → j < e → ∀ cell, record.get? j = some cell → trimStr cell = "") ∧
    p.parse_slice D i =
      exceptMapList (fun r => (D.from_record r s).mapError CsvError.decodeErr)
        (if p.config.skip_empty_rows then
          p.records.filter fun r => ! p.has_empty_fields s e r
        else p.records) := by
  constructor
  · intro record
    unfold CsvSliceParser.has_empty_fields
    rw [List.all_eq_true]
    constructor
    · intro h j hj1 hj2 cell hcell
      have hm : j ∈ List.range' s (e - s) := by
        rw [List.mem_range'_1]
        omega
      have hj := h j hm
      rw [hcell] at hj
      exact (String.isEmpty_iff _).mp hj
    · intro h j hm
      rw [List.mem_range'_1] at hm
      cases hcell : record.get? j with
      | none => rfl
      | some cell =>
        have := h j (by omega) (by omega) cell hcell
        simp only [(String.isEmpty_iff _).mpr this]
  · rw [parse_slice_eq_surviving p D i s e hv]
    rfl

/-- Witness for C5: on a two-column store with a blank row and a data row,
`parse_slice` equals the decoder mapped over the filtered rows. -/
theorem empty_row_filtering_witness :
    sampleStore.parse_slice pairSlice 0 =
      exceptMapList (fun r => (pairSlice.from_record r 0).mapError CsvError.decodeErr)
        (if sampleStore.config.skip_empty_rows then
          sampleStore.records.filter fun r => ! sampleStore.has_empty_fields 0 2 r
        else sampleStore.records) :=
  (empty_row_filtering sampleStore pairSlice 0 0 2 rfl).2

/-- C6: for a valid slice, `parse_slice` succeeds with `ts` iff the decoder
maps the surviving rows to `ts` one-to-one in row order, and fails with
`err` iff `err` wraps the decoder error of the first surviving row whose
decode fails, every earlier surviving row decoding successfully — no
partial collection is returned. -/
theorem parse_slice_first_error {T : Type} (p : CsvSliceParser) (D : FromColumnSlice T)
    (i s e : Nat)
    (hv : p.validate_slice_index D.COLUMN_COUNT i = .ok (s, e)) :
    (∀ ts : List T, p.parse_slice D i = .ok ts ↔
      List.Forall₂ (fun r t => D.from_record r s = .ok t) (p.surviving_rows s e) ts) ∧
    (∀ err : CsvError, p.parse_slice D i = .error err ↔
      ∃ pre r post, p.surviving_rows s e = pre ++ r :: post ∧
        (∀ a ∈ pre, ∃ t, D.from_record a s = .ok t) ∧
        ∃ msg, D.from_record r s = .error msg ∧ err = .decodeErr msg) := by
  rw [parse_slice_eq_surviving p D i s e hv]
  constructor
  · intro ts
    rw [exceptMapList_ok_iff]
    constructor
    · refine List.Forall₂.imp fun a b h => ?_
      cases hfr : D.from_record a s with
      | error m => rw [hfr] at h; cases h
      | ok t => rw [hfr] at h; cases h; rfl
    · refine List.Forall₂.imp fun a b h => ?_
      rw [h]
      rfl
  · intro err
    rw [exceptMapList_error_iff]
    constructor
    · rintro ⟨pre, r, post, hsplit, hpre, hr⟩
      refine ⟨pre, r, post, hsplit, fun a ha => ?_, ?_⟩
      · obtain ⟨b, hb⟩ := hpre a ha
        cases hfr : D.from_record a s with
        | error m => rw [hfr] at hb; cases hb
        | ok t => exact ⟨t, rfl⟩
      · cases hfr : D.from_record r s with
        | error m =>
          rw [hfr] at hr
          cases hr
          exact ⟨m, rfl, rfl⟩
        | ok t => rw [hfr] at hr; cases hr
    · rintro ⟨pre, r, post, hsplit, hpre, msg, hmsg, rfl⟩
      refine ⟨pre, r, post, hsplit, fun a ha => ?_, by rw [hmsg]; rfl⟩
      obtain ⟨t, ht⟩ := hpre a ha
      exact ⟨t, by rw [ht]; rfl⟩

/-- Witness for C6: a store whose second row is missing its second cell,
decoded with the strict two-column decoder, exhibits the first-error
decomposition. -/
theorem parse_slice_first_error_witness :
    ∃ pre r post, strictStore.surviving_rows 0 2 = pre ++ r :: post ∧
      (∀ a ∈ pre, ∃ t, pairSlice.from_record a 0 = .ok t) ∧
      ∃ msg, pairSlice.from_record r 0 = .error msg ∧
        CsvError.decodeErr "Missing field" = .decodeErr msg :=
  ((parse_slice_first_error strictStore pairSlice 0 0 2 rfl).2
    (.decodeErr "Missing field")).mp rfl

/-- C7: whenever the lazy iterator of `parse_slice_iter`, fully consumed,
yields only successes, the eager `parse_slice` returns exactly that
sequence of records. -/
theorem lazy_eager_agreement {T : Type} (p : CsvSliceParser) (D : FromColumnSlice T)
    (i : Nat) (items : List (Except CsvError T)) (ts : List T)
    (hiter : p.parse_slice_iter D i = .ok items)
    (hall : items = ts.map Except.ok) :
    p.parse_slice D i = .ok ts := by
  cases hv : p.validate_slice_index D.COLUMN_COUNT i with
  | error err =>
    unfold CsvSliceParser.parse_slice_iter at hiter
    rw [hv] at hiter
    cases hiter
  | ok se =>
    obtain ⟨s, e⟩ := se
    rw [parse_slice_iter_eq_surviving p D i s e hv] at hiter
    cases hiter
    rw [parse_slice_eq_surviving p D i s e hv]
    exact exceptMapList_of_map_ok hall

/-- Witness for C7: on the two-row store the fully consumed iterator is
`[ok ("x", "y")]` and the eager parse returns `[("x", "y")]`. -/
theorem lazy_eager_agreement_witness :
    sampleStore.parse_slice pairSlice 0 = .ok [("x", "y")] :=
  lazy_eager_agreement sampleStore pairSlice 0 [.ok ("x", "y")] [("x", "y")] rfl rfl

/-- C8: for W > 0, `parse_all_slices` succeeds with `out` iff `out` pairs
the slice indices `0, 1, …, slice_count − 1` in increasing order with the
results of `parse_slice` on them, and fails with `err` iff `err` is the
error of the lowest-index failing slice, every lower index succeeding. -/
theorem parse_all_slices_in_order {T : Type} (p : CsvSliceParser)
    (D : FromColumnSlice T) (hW : 0 < D.COLUMN_COUNT) :
    (∀ out : List (List T), p.parse_all_slices D = .ok out ↔
      List.Forall₂ (fun i ts => p.parse_slice D i = .ok ts)
        (List.range (p.slice_count D.COLUMN_COUNT)) out) ∧
    (∀ err : CsvError, p.parse_all_slices D = .error err ↔
      ∃ k, k < p.slice_count D.COLUMN_COUNT ∧ p.parse_slice D k = .error err ∧
        ∀ j, j < k → ∃ ts, p.parse_slice D j = .ok ts) := by
  unfold CsvSliceParser.parse_all_slices
  constructor
  · intro out
    exact exceptMapList_ok_iff
  · intro err
    rw [List.range_eq_range', exceptMapList_range'_error_iff]
    constructor
    · rintro ⟨k, hk1, hk2, hfk, hpre⟩
      exact ⟨k, by omega, hfk, fun j hj => hpre j (by omega) hj⟩
    · rintro ⟨k, hk, hfk, hpre⟩
      exact ⟨k, by omega, by omega, hfk, fun j hj1 hj2 => hpre j hj2⟩

/-- Witness for C8: the two-column store has one slice and `parse_all_slices`
returns exactly `[parse_slice 0]`. -/
theorem parse_all_slices_in_order_witness :
    sampleStore.parse_all_slices pairSlice = .ok [[("x", "y")]] :=
  ((parse_all_slices_in_order sampleStore pairSlice (by decide)).1
    [[("x", "y")]]).mpr (List.Forall₂.cons rfl List.Forall₂.nil)

/-- C9 counterexample: loading a source whose data row has fewer cells than
the header is an error — the reader (default `flexible = false`) rejects
the short row — so loading does not succeed as claimed. -/
theorem short_row_load_fails :
    from_file_with_config ParseConfig.default [["A", "B"], ["x"]] =
      .error (.unequalLengths 2 1) := rfl

/-- C9 amended: loading via `from_file_with_config` succeeds only when
every data row has exactly the header's cell count (a short row aborts the
load); for a record store that does contain a short row (as `from_records`
permits), the missing cells read as empty when sliced — cells past the
row's end count as empty in the row filter, and parsing with a decoder
that requires no cell always succeeds, so a missing cell only causes a
failure when the caller's decoder explicitly requires it. -/
theorem short_row_leniency :
    (∀ (cfg : ParseConfig) (hdr : List String) (rest : List (List String))
        (p : CsvSliceParser),
      from_file_with_config cfg (hdr :: rest) = .ok p →
        ∀ r ∈ rest, r.length = hdr.length) ∧
    (∀ (p : CsvSliceParser) (start_col end_col : Nat) (r : List String),
      r.length ≤ start_col → p.has_empty_fields start_col end_col r = true) ∧
    (∀ (p : CsvSliceParser) {T : Type} (D : FromColumnSlice T) (i s e : Nat),
      p.validate_slice_index D.COLUMN_COUNT i = .ok (s, e) →
      (∀ r c, ∃ t, D.from_record r c = .ok t) →
      ∃ ts, p.parse_slice D i = .ok ts) := by
  refine ⟨?_, ?_, ?_⟩
  · intro cfg hdr rest p h
    simp only [from_file_with_config] at h
    cases hread : readRecords hdr.length rest with
    | error err => rw [hread] at h; cases h
    | ok out => exact readRecords_ok_lengths hread
  · intro p start_col end_col r hlen
    unfold CsvSliceParser.has_empty_fields
    rw [List.all_eq_true]
    intro j hm
    rw [List.mem_range'_1] at hm
    have : r.get? j = none := List.get?_eq_none.mpr (by omega)
    rw [this]
  · intro p T D i s e hv htotal
    unfold CsvSliceParser.parse_slice
    rw [hv]
    exact parse_rows_total_ok p D s e htotal p.records

/-- Witness for C9's amended statement: a well-formed load pins the row
width; the short row `["x"]` is all-empty from column 1 on; and the
lenient three-column decoder parses the short-row store without error. -/
theorem short_row_leniency_witness :
    (["x", "y"] : List String).length = (["A", "B"] : List String).length ∧
    shortRowStore.has_empty_fields 1 3 ["x"] = true ∧
    ∃ ts, shortRowStore.parse_slice lenientSlice 0 = .ok ts :=
  ⟨short_row_leniency.1 ParseConfig.default ["A", "B"] [["x", "y"]]
      { headers := ["A", "B"], records := [["x", "y"]], config := ParseConfig.default }
      rfl ["x", "y"] (List.mem_singleton.mpr rfl),
   short_row_leniency.2.1 shortRowStore 1 3 ["x"] (by decide),
   short_row_leniency.2.2 shortRowStore lenientSlice 0 0 3 rfl
     (fun r c => ⟨_, rfl⟩)⟩

/-- C10: with `COLUMN_COUNT = 0`, `slice_count` divides by zero and panics
(`slice_count_rust` is `none`, whereas for every W > 0 it agrees with the
total `slice_count`); the positivity of W is checked nowhere:
`validate_slice_index` accepts every slice index at width 0, returning the
empty range `(0, 0)`, and `parse_slice` runs to completion, skipping every
row once `skip_empty_rows` is on. -/
theorem column_count_zero_unchecked :
    (∀ p : CsvSliceParser, p.slice_count_rust 0 = none) ∧
    (∀ (p : CsvSliceParser) (W : Nat), 0 < W →
      p.slice_count_rust W = some (p.slice_count W)) ∧
    (∀ (p : CsvSliceParser) (i : Nat),
      p.validate_slice_index 0 i = .ok (0, 0)) ∧
    (∀ (p : CsvSliceParser) {T : Type} (D : FromColumnSlice T) (i : Nat),
      D.COLUMN_COUNT = 0 → p.config.skip_empty_rows = true →
      p.parse_slice D i = .ok []) := by
  refine ⟨fun p => rfl, fun p W hW => ?_, fun p i => ?_, fun p T D i hD hskip => ?_⟩
  · unfold CsvSliceParser.slice_count_rust
    rw [if_neg (by omega)]
    rfl
  · simp [CsvSliceParser.validate_slice_index]
  · have hv : p.validate_slice_index D.COLUMN_COUNT i = .ok (0, 0) := by
      rw [hD]
      simp [CsvSliceParser.validate_slice_index]
    unfold CsvSliceParser.parse_slice
    rw [hv]
    have hempty : ∀ r : List String, p.has_empty_fields 0 0 r = true := fun r => rfl
    have : ∀ rows : List (List String), p.parse_rows D 0 0 rows = .ok [] := by
      intro rows
      induction rows with
      | nil => rfl
      | cons r rs ih =>
        rw [CsvSliceParser.parse_rows, if_pos (by rw [hskip, hempty r]; rfl)]
        exact ih
    exact this p.records

/-- Witness for C10: at width 0 the panic-aware `slice_count` is `none`
while width 3 agrees with the total one; slice index 7 still validates at
width 0; and the width-zero decoder parses slice 3 to the empty list. -/
theorem column_count_zero_unchecked_witness :
    headerStore5.slice_count_rust 0 = none ∧
    headerStore5.slice_count_rust 3 = some (headerStore5.slice_count 3) ∧
    headerStore5.validate_slice_index 0 7 = .ok (0, 0) ∧
    sampleStore.parse_slice zeroSlice 3 = .ok [] :=
  ⟨column_count_zero_unchecked.1 headerStore5,
   column_count_zero_unchecked.2.1 headerStore5 3 (by decide),
   column_count_zero_unchecked.2.2.1 headerStore5 7,
   column_count_zero_unchecked.2.2.2 sampleStore zeroSlice 3 rfl rfl⟩

end CsvPartitioner

